import Mathlib

/-!
Verification of the deepagents `mcp-rag` multi-strategy retrieval engine
(`src/integrations/mcp-rag/src/deepagents_mcp_rag/`).

Python strings are modelled as `List Char` (`Str`), Python floats as `ℚ`,
Python dicts as association lists in key-insertion order, and every fallible
external call (cache, LLM, vector store, document store) as an
environment-supplied `Except` outcome.  Python's builtin `hash` is an
uninterpreted parameter `pyHash : Str → Int` wherever the code calls it.
-/

set_option maxRecDepth 4000

/-- Python `str` modelled as a list of characters. -/
abbrev Str := List Char

/-- Python whitespace characters (the set used by `str.split()` / `str.strip()`
for ASCII text). -/
def pyIsSpace (c : Char) : Bool :=
  c = ' ' || c = '\t' || c = '\n' || c = '\r' || c = '\x0b' || c = '\x0c'

/-- Python `str.lower()` (ASCII model). -/
def pyLower (s : Str) : Str := s.map Char.toLower

/-- Python `str.strip()`: drop leading and trailing whitespace. -/
def pyStrip (s : Str) : Str :=
  ((s.dropWhile pyIsSpace).reverse.dropWhile pyIsSpace).reverse

/-- Split on a single separator character, keeping empty groups, as Python's
`str.split(sep)` does. -/
def splitOnChar (c : Char) (s : Str) : List Str :=
  s.foldr (fun ch acc =>
    match acc with
    | [] => if ch = c then [[], []] else [[ch]]
    | g :: gs => if ch = c then [] :: g :: gs else (ch :: g) :: gs) [[]]

/-- Python `str.split()` with no argument: split on whitespace runs and drop
empty tokens. -/
def pySplitWs (s : Str) : List Str :=
  (s.foldr (fun ch acc =>
    match acc with
    | [] => if pyIsSpace ch then [[], []] else [[ch]]
    | g :: gs => if pyIsSpace ch then [] :: g :: gs else (ch :: g) :: gs) [[]]).filter
    (fun g => ¬ g = [])

/-- Python `sub in s` substring test. -/
def strContains : Str → Str → Bool
  | [], sub => sub.isEmpty
  | c :: rest, sub => sub.isPrefixOf (c :: rest) || strContains rest sub

/-!
## Factory auto-selection (`retrievers/factory.py`, `_select_auto_strategy`)
-/

/-- Function `RetrieverFactory._select_auto_strategy` from `retrievers/factory.py`:
heuristic strategy choice from the query text, translated clause by clause. -/
def selectAutoStrategy (query : Str) : Str :=
  let query_lower := pyLower query
  let query_length := (pySplitWs query).length
  if query_length ≤ 3 ∧
      (["what".data, "when".data, "where".data, "who".data].any
        (fun keyword => strContains query_lower keyword)) then
    "bm25".data
  else if (["function".data, "class".data, "method".data, "api".data,
      "error".data, "bug".data, "fix".data].any
        (fun tech_term => strContains query_lower tech_term)) then
    "bm25".data
  else if query_length > 10 ∨
      (["explain".data, "how".data, "why".data, "compare".data].any
        (fun keyword => strContains query_lower keyword)) then
    "ensemble".data
  else if 4 ≤ query_length ∧ query_length ≤ 10 then
    "vector".data
  else
    "ensemble".data

/-- The spec's names for the strategies its auto-selection table can pick. -/
inductive SpecStrategy where
  | keyword
  | vector
  | ensemble
deriving DecidableEq

/-- The registered strategy name for each spec strategy: the spec calls the
BM25 strategy "keyword" (spec section 1: "keyword (BM25)"), the code registers
it as "bm25". -/
def SpecStrategy.registeredName : SpecStrategy → Str
  | .keyword => "bm25".data
  | .vector => "vector".data
  | .ensemble => "ensemble".data

/-- Modelled from the spec's auto-selection table (spec section 4.7), checked
in order: word count ≤ 3 with a question word selects keyword; a technical
term selects keyword; word count > 10 or a conceptual word selects ensemble;
word count between 4 and 10 selects vector; otherwise ensemble. -/
def specAutoSelect (query : Str) : SpecStrategy :=
  let query_lower := pyLower query
  let word_count := (pySplitWs query).length
  if word_count ≤ 3 ∧
      (["what".data, "when".data, "where".data, "who".data].any
        (fun w => strContains query_lower w)) then
    .keyword
  else if (["function".data, "class".data, "method".data, "api".data,
      "error".data, "bug".data, "fix".data].any
        (fun w => strContains query_lower w)) then
    .keyword
  else if word_count > 10 ∨
      (["explain".data, "how".data, "why".data, "compare".data].any
        (fun w => strContains query_lower w)) then
    .ensemble
  else if 4 ≤ word_count ∧ word_count ≤ 10 then
    .vector
  else
    .ensemble

/-- C4: auto strategy selection is a pure, deterministic function of the query
string and agrees, on every query, with the spec's rule table checked in
order (with the spec's "keyword" strategy registered under the name "bm25"). -/
theorem selectAutoStrategy_matches_spec (query : Str) :
    selectAutoStrategy query = (specAutoSelect query).registeredName := by
  unfold selectAutoStrategy specAutoSelect
  dsimp only
  repeat' split
  all_goals rfl

/-- Witness for C4 at the spec's own example query "What is BM25?": a short
factual query selects the keyword (BM25) strategy. -/
theorem selectAutoStrategy_matches_spec_witness :
    selectAutoStrategy ("What is BM25?".data) =
      (specAutoSelect ("What is BM25?".data)).registeredName ∧
    selectAutoStrategy ("What is BM25?".data) = "bm25".data :=
  ⟨selectAutoStrategy_matches_spec ("What is BM25?".data), by decide⟩

/-!
## Association lists: Python `dict` in key-insertion order
-/

/-- Python `d.get(k)` / `d[k]`: value of the binding for `k`, if any. -/
def alGet {α : Type} : List (Str × α) → Str → Option α
  | [], _ => none
  | p :: ps, k => if p.1 = k then some p.2 else alGet ps k

/-- Python `d[k] = v`: replace the binding in place, or append a new one. -/
def alSet {α : Type} : List (Str × α) → Str → α → List (Str × α)
  | [], k, v => [(k, v)]
  | p :: ps, k, v => if p.1 = k then (p.1, v) :: ps else p :: alSet ps k v

/-- Python `d.pop(k, None)` / `del d[k]`: drop the binding for `k`. -/
def alErase {α : Type} : List (Str × α) → Str → List (Str × α)
  | [], _ => []
  | p :: ps, k => if p.1 = k then alErase ps k else p :: alErase ps k

/-- Python `d.update(other)`: apply `alSet` for each binding of `other`. -/
def alUpdate {α : Type} (m upd : List (Str × α)) : List (Str × α) :=
  upd.foldl (fun acc p => alSet acc p.1 p.2) m

theorem alGet_alSet_self {α : Type} (m : List (Str × α)) (k : Str) (v : α) :
    alGet (alSet m k v) k = some v := by
  induction m with
  | nil => simp [alSet, alGet]
  | cons p ps ih =>
    by_cases h : p.1 = k <;> simp [alSet, alGet, h, ih]

theorem alGet_alSet_ne {α : Type} (m : List (Str × α)) (k k' : Str) (v : α)
    (h : k' ≠ k) : alGet (alSet m k v) k' = alGet m k' := by
  induction m with
  | nil => simp [alSet, alGet, Ne.symm h]
  | cons p ps ih =>
    by_cases hp : p.1 = k
    · have hp' : ¬ p.1 = k' := by rw [hp]; exact Ne.symm h
      simp [alSet, alGet, hp, hp', Ne.symm h]
    · simp [alSet, alGet, hp, ih]

theorem alGet_alErase_ne {α : Type} (m : List (Str × α)) (k k' : Str)
    (h : k' ≠ k) : alGet (alErase m k) k' = alGet m k' := by
  induction m with
  | nil => simp [alErase, alGet]
  | cons p ps ih =>
    by_cases hp : p.1 = k
    · have hp' : ¬ p.1 = k' := by rw [hp]; exact Ne.symm h
      simp [alErase, alGet, hp, hp', ih, Ne.symm h]
    · simp [alErase, alGet, hp, ih]

/-!
## Factory registration and `get_info` strategy names
(`retrievers/factory.py`, `retrievers/base.py`)
-/

/-- Remove every occurrence of `pat` from `s`, scanning left to right, with
explicit fuel for structural recursion (fuel `s.length` suffices for a
non-empty pattern).  This is Python's `s.replace(pat, "")`. -/
def removeSubstrAux (pat : Str) : Nat → Str → Str
  | 0, s => s
  | _ + 1, [] => []
  | fuel + 1, c :: rest =>
    if pat ≠ [] ∧ pat.isPrefixOf (c :: rest) then
      removeSubstrAux pat fuel ((c :: rest).drop pat.length)
    else
      c :: removeSubstrAux pat fuel rest

/-- Python `s.replace(pat, "")`. -/
def pyRemoveAll (pat s : Str) : Str := removeSubstrAux pat s.length s

/-- Method `BaseRetriever.__init__` from `retrievers/base.py`:
`self.strategy_name = self.__class__.__name__.replace("Retriever", "").lower()`. -/
def strategyNameOf (className : Str) : Str :=
  pyLower (pyRemoveAll ("Retriever".data) className)

/-- Method `RetrieverFactory._register_builtin_strategies` from
`retrievers/factory.py`: the registered name → class-name table. -/
def builtinStrategies : List (Str × Str) :=
  [("bm25".data, "BM25Retriever".data),
   ("vector".data, "VectorRetriever".data),
   ("parent_doc".data, "ParentDocRetriever".data),
   ("multi_query".data, "MultiQueryRetriever".data),
   ("rerank".data, "RerankRetriever".data),
   ("ensemble".data, "EnsembleRetriever".data)]

/-- Method `RetrieverFactory.create` reduced to the class it instantiates: the
`get_info()["strategy"]` field of the created instance is
`strategyNameOf` of that class's name. -/
def factoryCreateClassName (name : Str) : Option Str :=
  alGet builtinStrategies name

/-- C6 counterexample: the claim `factory.create(name).get_info().strategy ==
name` fails for the registered name "parent_doc": the created class
`ParentDocRetriever` reports strategy "parentdoc" (class name with
"Retriever" removed, lowercased), not "parent_doc". -/
theorem factory_roundtrip_fails_for_parent_doc :
    factoryCreateClassName ("parent_doc".data) = some ("ParentDocRetriever".data) ∧
    strategyNameOf ("ParentDocRetriever".data) = "parentdoc".data ∧
    ¬ strategyNameOf ("ParentDocRetriever".data) = "parent_doc".data := by
  refine ⟨by decide, by decide, by decide⟩

/-- C6 (amended): for every registered (name, class) pair in the factory the
round trip `factory.create(name).get_info().strategy == name` holds exactly
when the name is one of bm25, vector, rerank, ensemble; for parent_doc and
multi_query the reported strategy is the underscore-free lowercased class
name. -/
theorem factory_roundtrip_iff (p : Str × Str) (hp : p ∈ builtinStrategies) :
    (strategyNameOf p.2 = p.1 ↔
      (p.1 = "bm25".data ∨ p.1 = "vector".data ∨
       p.1 = "rerank".data ∨ p.1 = "ensemble".data)) := by
  fin_cases hp <;> simp <;> decide

/-- Witness for C6 (amended) at the registered pair for "bm25". -/
theorem factory_roundtrip_iff_witness :
    strategyNameOf ("BM25Retriever".data) = "bm25".data :=
  (factory_roundtrip_iff (("bm25".data, "BM25Retriever".data)) (by decide)).2
    (Or.inl (by decide))

/-!
## Documents and metadata (`langchain_core.documents.Document` as the code
uses it: opaque text plus a string-keyed metadata dict)
-/

/-- Metadata values the core writes: strings, ints, floats, bools, and lists
of strings. -/
inductive MetaVal where
  | vStr (s : Str)
  | vNat (n : Nat)
  | vInt (n : Int)
  | vRat (q : ℚ)
  | vBool (b : Bool)
  | vStrList (l : List Str)
deriving DecidableEq

/-- A document: textual payload plus metadata mapping. -/
structure Doc where
  page_content : Str
  metadata : List (Str × MetaVal)
deriving DecidableEq

/-- The default document used for total indexing. -/
def emptyDoc : Doc := ⟨[], []⟩

/-!
## Rerank response parsing (`retrievers/rerank.py`)
-/

/-- Python `str.isdigit()` restricted to ASCII digits (the only case the
rerank prompt produces). -/
def pyIsDigitStr (s : Str) : Bool := !s.isEmpty && s.all Char.isDigit

/-- Python `int(s)` on a digit string. -/
def pyStrToNat (s : Str) : Nat := s.foldl (fun a c => a * 10 + (c.toNat - 48)) 0

/-- Python `word.rstrip('.,)')`. -/
def pyRstripPunct (s : Str) : Str :=
  (s.reverse.dropWhile (fun c => c = '.' || c = ',' || c = ')')).reverse

/-- The per-line word scan of `RerankRetriever._parse_ranking_response`: walk
the words of one line; the first in-range, not-yet-seen integer is appended
and the scan of this line stops (the `break`); other words are skipped. -/
def parseLineWords (num_docs : Nat) : List Str → List Nat → List Nat
  | [], ranking => ranking
  | word :: ws, ranking =>
    if pyIsDigitStr word then
      let num := pyStrToNat word
      if 1 ≤ num ∧ num ≤ num_docs ∧ num ∉ ranking then ranking ++ [num]
      else parseLineWords num_docs ws ranking
    else if pyIsDigitStr (pyRstripPunct word) then
      let num := pyStrToNat (pyRstripPunct word)
      if 1 ≤ num ∧ num ≤ num_docs ∧ num ∉ ranking then ranking ++ [num]
      else parseLineWords num_docs ws ranking
    else parseLineWords num_docs ws ranking

/-- The line loop of `_parse_ranking_response`. -/
def extractRanking (response : Str) (num_docs : Nat) : List Nat :=
  (splitOnChar '\n' (pyStrip response)).foldl
    (fun r line => parseLineWords num_docs (pySplitWs (pyStrip line)) r) []

/-- The fill loop of `_parse_ranking_response`: append every index of
`1..num_docs` that is still missing. -/
def fillMissing (num_docs : Nat) (ranking : List Nat) : List Nat :=
  (List.range' 1 num_docs).foldl (fun r i => if i ∈ r then r else r ++ [i]) ranking

/-- Method `RerankRetriever._parse_ranking_response` from `retrievers/rerank.py`. -/
def parseRankingResponse (response : Str) (num_docs : Nat) : List Nat :=
  fillMissing num_docs (extractRanking response num_docs)

/-- Modelled from the spec: "extract integers in reading order, skip
out-of-range and duplicates, append any missing indices at the end" — every
integer token of the reply is considered, in reading order, with no per-line
limit. -/
def specLenientParse (response : Str) (num_docs : Nat) : List Nat :=
  let tokens := ((splitOnChar '\n' (pyStrip response)).map
    (fun line => pySplitWs (pyStrip line))).flatten
  let ints := tokens.filterMap (fun w =>
    if pyIsDigitStr w then some (pyStrToNat w)
    else if pyIsDigitStr (pyRstripPunct w) then some (pyStrToNat (pyRstripPunct w))
    else none)
  let ranking := ints.foldl
    (fun r n => if 1 ≤ n ∧ n ≤ num_docs ∧ n ∉ r then r ++ [n] else r) []
  fillMissing num_docs ranking

/-- The reordering step of `RerankRetriever._rerank_documents`: take the
documents named by the parsed ranking (stamping `rerank_score`), then append
the documents not mentioned (with `rerank_score` 0). -/
def rerankOrder (documents : List Doc) (ranking : List Nat) : List Doc :=
  let reranked := ranking.foldl (fun acc r =>
    if 1 ≤ r ∧ r ≤ documents.length then
      acc ++ [{ documents.getD (r - 1) emptyDoc with
        metadata := alSet (documents.getD (r - 1) emptyDoc).metadata
          ("rerank_score".data) (MetaVal.vInt ((ranking.length : Int) - acc.length)) }]
    else acc) []
  let included := ranking.filterMap
    (fun r => if 1 ≤ r ∧ r ≤ documents.length then some (r - 1) else none)
  reranked ++ documents.enum.filterMap (fun p =>
    if p.1 ∈ included then none
    else some { p.2 with
      metadata := alSet p.2.metadata ("rerank_score".data) (MetaVal.vInt 0) })

/-- The parser's running invariant: no duplicates, all indices in range. -/
def RankingInv (n : Nat) (r : List Nat) : Prop :=
  r.Nodup ∧ ∀ x ∈ r, 1 ≤ x ∧ x ≤ n

theorem RankingInv.push {n : Nat} {r : List Nat} (h : RankingInv n r) {m : Nat}
    (h1 : 1 ≤ m) (h2 : m ≤ n) (h3 : m ∉ r) : RankingInv n (r ++ [m]) := by
  constructor
  · simp [List.nodup_append, h.1, h3]
  · intro x hx
    rcases List.mem_append.1 hx with hx | hx
    · exact h.2 x hx
    · simp only [List.mem_singleton] at hx
      subst hx
      exact ⟨h1, h2⟩

theorem parseLineWords_inv (n : Nat) (ws : List Str) (r : List Nat)
    (h : RankingInv n r) : RankingInv n (parseLineWords n ws r) := by
  induction ws generalizing r with
  | nil => simpa [parseLineWords] using h
  | cons w ws ih =>
    simp only [parseLineWords]
    split
    · split
      · next hc => exact h.push hc.1 hc.2.1 hc.2.2
      · exact ih r h
    · split
      · split
        · next hc => exact h.push hc.1 hc.2.1 hc.2.2
        · exact ih r h
      · exact ih r h

theorem extractRanking_inv (response : Str) (n : Nat) :
    RankingInv n (extractRanking response n) := by
  unfold extractRanking
  generalize splitOnChar '\n' (pyStrip response) = lines
  have h0 : RankingInv n ([] : List Nat) := ⟨List.nodup_nil, by simp⟩
  generalize hr : ([] : List Nat) = r at h0 ⊢
  clear hr
  induction lines generalizing r with
  | nil => exact h0
  | cons l ls ih => exact ih _ (parseLineWords_inv n _ r h0)

theorem foldl_fill_eq (l : List Nat) (hl : l.Nodup) (r : List Nat) :
    l.foldl (fun r i => if i ∈ r then r else r ++ [i]) r
      = r ++ l.filter (fun i => decide (i ∉ r)) := by
  induction l generalizing r with
  | nil => simp
  | cons i l ih =>
    have hl' : l.Nodup := (List.nodup_cons.1 hl).2
    have hnotin : i ∉ l := (List.nodup_cons.1 hl).1
    simp only [List.foldl_cons]
    by_cases hmem : i ∈ r
    · rw [if_pos hmem, ih hl' r, List.filter_cons]
      simp [hmem]
    · rw [if_neg hmem, ih hl' (r ++ [i]), List.filter_cons]
      simp only [hmem, not_false_eq_true, decide_True, if_pos]
      rw [List.append_assoc, List.singleton_append]
      congr 2
      apply List.filter_congr
      intro x hx
      have hne : x ≠ i := fun hxi => hnotin (hxi ▸ hx)
      simp [List.mem_append, hne]

theorem fillMissing_perm (n : Nat) (r : List Nat) (h : RankingInv n r) :
    List.Perm (fillMissing n r) (List.range' 1 n) := by
  have hnd : (List.range' 1 n).Nodup := by
    have := List.nodup_range (n + 1)
    exact (List.range'_eq_map_range 1 n) ▸
      ((List.nodup_range n).map (fun a b hab => by omega))
  unfold fillMissing
  rw [foldl_fill_eq _ hnd r]
  have h1 : List.Perm ((List.range' 1 n).filter (fun i => decide (i ∈ r))) r := by
    apply (List.perm_ext_iff_of_nodup (hnd.filter _) h.1).2
    intro a
    simp only [List.mem_filter, decide_eq_true_eq]
    constructor
    · rintro ⟨-, ha⟩
      exact ha
    · intro ha
      refine ⟨?_, ha⟩
      rw [List.mem_range'_1]
      have := h.2 a ha
      omega
  have h2 := List.filter_append_perm (fun i => decide (i ∈ r)) (List.range' 1 n)
  have h3 : (List.range' 1 n).filter (fun x => !decide (x ∈ r))
      = (List.range' 1 n).filter (fun i => decide (i ∉ r)) := by
    apply List.filter_congr
    intro x hx
    simp
  rw [h3] at h2
  exact (h1.symm.append_right _).trans h2

/-- C3 (amended): the rerank ranking parser always returns a complete
permutation of 1..n — it takes at most one integer per line (the first
in-range, not-yet-seen one), skips out-of-range and duplicate values, and
appends all missing indices at the end; on the spec's concrete scenario
(5 candidates, reply "3\n1\n5") the parsed permutation is [3,1,5,2,4] and the
top-3 reranked results are the candidates at original positions 3, 1, 5. -/
theorem parseRankingResponse_complete_perm :
    (∀ response num_docs, List.Perm (parseRankingResponse response num_docs)
      (List.range' 1 num_docs))
    ∧ parseRankingResponse ("3\n1\n5".data) 5 = [3, 1, 5, 2, 4]
    ∧ ((rerankOrder
          [⟨"c1".data, []⟩, ⟨"c2".data, []⟩, ⟨"c3".data, []⟩,
           ⟨"c4".data, []⟩, ⟨"c5".data, []⟩]
          (parseRankingResponse ("3\n1\n5".data) 5)).take 3).map Doc.page_content
        = ["c3".data, "c1".data, "c5".data] := by
  refine ⟨?_, by decide, by decide⟩
  intro response num_docs
  exact fillMissing_perm num_docs _ (extractRanking_inv response num_docs)

/-- C3 counterexample: the parser does not extract all integers in reading
order — on the single-line reply "2 3" with 3 candidates it takes only the
first integer of the line (result [2,1,3]), while the spec's described
extraction would give [2,3,1]. -/
theorem parseRankingResponse_not_reading_order :
    parseRankingResponse ("2 3".data) 3 = [2, 1, 3] ∧
    specLenientParse ("2 3".data) 3 = [2, 3, 1] ∧
    ¬ parseRankingResponse ("2 3".data) 3 = specLenientParse ("2 3".data) 3 := by
  refine ⟨by decide, by decide, by decide⟩

/-!
## RAGAS evaluator scores (`eval/metrics.py`)
-/

/-- Python `float(s)` on plain decimal forms: optional sign, integer part,
optional fractional part ("1", "0.85", ".5", "-2.", "+3").  Anything else —
empty token, stray characters, a second dot — fails (scientific notation is
not produced by the evaluator rubric and is not modelled). -/
def pyFloatQ? (s : Str) : Option ℚ :=
  let signed : ℚ × Str :=
    match s with
    | '-' :: r => (-1, r)
    | '+' :: r => (1, r)
    | r => (1, r)
  match splitOnChar '.' signed.2 with
  | [ip] =>
    if pyIsDigitStr ip then some (signed.1 * pyStrToNat ip) else none
  | [ip, fp] =>
    if (ip.all Char.isDigit && fp.all Char.isDigit) && (!ip.isEmpty || !fp.isEmpty) then
      some (signed.1 * ((pyStrToNat ip : ℚ) + (pyStrToNat fp : ℚ) / (10 : ℚ) ^ fp.length))
    else none
  | _ => none

/-- The `RAGASResults` dataclass of `eval/metrics.py`. -/
structure RAGASResults where
  answer_relevancy : ℚ
  context_precision : ℚ
  context_recall : ℚ
  faithfulness : ℚ
  overall_score : ℚ
deriving DecidableEq

/-- The shared score-extraction pattern of `_calculate_answer_relevancy`,
`_calculate_context_precision`, `_calculate_context_recall` and
`_calculate_faithfulness`: on an LLM failure return 0.5; otherwise take the
first whitespace-separated token of the stripped reply, replace commas by
dots, parse as a float (failure, including an empty reply, returns 0.5) and
clamp into [0, 1]. -/
def parseScoreReply (reply : Except Str Str) : ℚ :=
  match reply with
  | .error _ => 1 / 2
  | .ok content =>
    match (pySplitWs (pyStrip content)).head? with
    | none => 1 / 2
    | some tok =>
      match pyFloatQ? (tok.map (fun c => if c = ',' then '.' else c)) with
      | none => 1 / 2
      | some score => min (max score 0) 1

/-- Function `_llm_based_ragas_evaluation` from `eval/metrics.py`, over the four LLM
reply outcomes: four independently parsed scores and their unweighted mean. -/
def llmBasedRagasEvaluation
    (r_relevancy r_precision r_recall r_faithfulness : Except Str Str) :
    RAGASResults :=
  let relevancy := parseScoreReply r_relevancy
  let precision := parseScoreReply r_precision
  let recallScore := parseScoreReply r_recall
  let faithScore := parseScoreReply r_faithfulness
  { answer_relevancy := relevancy
    context_precision := precision
    context_recall := recallScore
    faithfulness := faithScore
    overall_score := (relevancy + precision + recallScore + faithScore) / 4 }

theorem llmEval_answer_relevancy (r1 r2 r3 r4 : Except Str Str) :
    (llmBasedRagasEvaluation r1 r2 r3 r4).answer_relevancy = parseScoreReply r1 := rfl

theorem llmEval_context_precision (r1 r2 r3 r4 : Except Str Str) :
    (llmBasedRagasEvaluation r1 r2 r3 r4).context_precision = parseScoreReply r2 := rfl

theorem llmEval_context_recall (r1 r2 r3 r4 : Except Str Str) :
    (llmBasedRagasEvaluation r1 r2 r3 r4).context_recall = parseScoreReply r3 := rfl

theorem llmEval_faithfulness (r1 r2 r3 r4 : Except Str Str) :
    (llmBasedRagasEvaluation r1 r2 r3 r4).faithfulness = parseScoreReply r4 := rfl

theorem llmEval_overall (r1 r2 r3 r4 : Except Str Str) :
    (llmBasedRagasEvaluation r1 r2 r3 r4).overall_score
      = (parseScoreReply r1 + parseScoreReply r2 + parseScoreReply r3
         + parseScoreReply r4) / 4 := rfl

theorem parseScoreReply_bounds (reply : Except Str Str) :
    0 ≤ parseScoreReply reply ∧ parseScoreReply reply ≤ 1 := by
  unfold parseScoreReply
  rcases reply with e | content
  · norm_num
  · dsimp only
    cases h1 : (pySplitWs (pyStrip content)).head? with
    | none => norm_num
    | some tok =>
      dsimp only
      cases h2 : pyFloatQ? (tok.map (fun c => if c = ',' then '.' else c)) with
      | none => norm_num
      | some score =>
        exact ⟨le_min (le_max_right score 0) zero_le_one, min_le_right _ 1⟩

/-- C8: each quality score is parsed independently from its own LLM reply
(first whitespace token, comma normalized to dot, clamped to [0,1]); a parse
or call failure makes that one score 0.5 and leaves the other three
unchanged; every score lies in [0,1]; and `overall_score` is the unweighted
mean of the four. -/
theorem ragas_scores_properties (r1 r2 r3 r4 : Except Str Str) :
    (llmBasedRagasEvaluation r1 r2 r3 r4).overall_score
      = ((llmBasedRagasEvaluation r1 r2 r3 r4).answer_relevancy
         + (llmBasedRagasEvaluation r1 r2 r3 r4).context_precision
         + (llmBasedRagasEvaluation r1 r2 r3 r4).context_recall
         + (llmBasedRagasEvaluation r1 r2 r3 r4).faithfulness) / 4
    ∧ (0 ≤ (llmBasedRagasEvaluation r1 r2 r3 r4).answer_relevancy
        ∧ (llmBasedRagasEvaluation r1 r2 r3 r4).answer_relevancy ≤ 1)
    ∧ (0 ≤ (llmBasedRagasEvaluation r1 r2 r3 r4).context_precision
        ∧ (llmBasedRagasEvaluation r1 r2 r3 r4).context_precision ≤ 1)
    ∧ (0 ≤ (llmBasedRagasEvaluation r1 r2 r3 r4).context_recall
        ∧ (llmBasedRagasEvaluation r1 r2 r3 r4).context_recall ≤ 1)
    ∧ (0 ≤ (llmBasedRagasEvaluation r1 r2 r3 r4).faithfulness
        ∧ (llmBasedRagasEvaluation r1 r2 r3 r4).faithfulness ≤ 1)
    ∧ (∀ e, (llmBasedRagasEvaluation (Except.error e) r2 r3 r4).answer_relevancy = 1 / 2
        ∧ (llmBasedRagasEvaluation (Except.error e) r2 r3 r4).context_precision
            = (llmBasedRagasEvaluation r1 r2 r3 r4).context_precision
        ∧ (llmBasedRagasEvaluation (Except.error e) r2 r3 r4).context_recall
            = (llmBasedRagasEvaluation r1 r2 r3 r4).context_recall
        ∧ (llmBasedRagasEvaluation (Except.error e) r2 r3 r4).faithfulness
            = (llmBasedRagasEvaluation r1 r2 r3 r4).faithfulness)
    ∧ (∀ e, (llmBasedRagasEvaluation r1 (Except.error e) r3 r4).context_precision = 1 / 2
        ∧ (llmBasedRagasEvaluation r1 (Except.error e) r3 r4).answer_relevancy
            = (llmBasedRagasEvaluation r1 r2 r3 r4).answer_relevancy
        ∧ (llmBasedRagasEvaluation r1 (Except.error e) r3 r4).context_recall
            = (llmBasedRagasEvaluation r1 r2 r3 r4).context_recall
        ∧ (llmBasedRagasEvaluation r1 (Except.error e) r3 r4).faithfulness
            = (llmBasedRagasEvaluation r1 r2 r3 r4).faithfulness)
    ∧ (∀ e, (llmBasedRagasEvaluation r1 r2 (Except.error e) r4).context_recall = 1 / 2
        ∧ (llmBasedRagasEvaluation r1 r2 (Except.error e) r4).answer_relevancy
            = (llmBasedRagasEvaluation r1 r2 r3 r4).answer_relevancy
        ∧ (llmBasedRagasEvaluation r1 r2 (Except.error e) r4).context_precision
            = (llmBasedRagasEvaluation r1 r2 r3 r4).context_precision
        ∧ (llmBasedRagasEvaluation r1 r2 (Except.error e) r4).faithfulness
            = (llmBasedRagasEvaluation r1 r2 r3 r4).faithfulness)
    ∧ (∀ e, (llmBasedRagasEvaluation r1 r2 r3 (Except.error e)).faithfulness = 1 / 2
        ∧ (llmBasedRagasEvaluation r1 r2 r3 (Except.error e)).answer_relevancy
            = (llmBasedRagasEvaluation r1 r2 r3 r4).answer_relevancy
        ∧ (llmBasedRagasEvaluation r1 r2 r3 (Except.error e)).context_precision
            = (llmBasedRagasEvaluation r1 r2 r3 r4).context_precision
        ∧ (llmBasedRagasEvaluation r1 r2 r3 (Except.error e)).context_recall
            = (llmBasedRagasEvaluation r1 r2 r3 r4).context_recall) := by
  refine ⟨?_, ?_, ?_, ?_, ?_, fun e => ⟨rfl, rfl, rfl, rfl⟩,
    fun e => ⟨rfl, rfl, rfl, rfl⟩, fun e => ⟨rfl, rfl, rfl, rfl⟩,
    fun e => ⟨rfl, rfl, rfl, rfl⟩⟩
  · simp only [llmEval_overall, llmEval_answer_relevancy, llmEval_context_precision,
      llmEval_context_recall, llmEval_faithfulness]
  · simp only [llmEval_answer_relevancy]
    exact parseScoreReply_bounds r1
  · simp only [llmEval_context_precision]
    exact parseScoreReply_bounds r2
  · simp only [llmEval_context_recall]
    exact parseScoreReply_bounds r3
  · simp only [llmEval_faithfulness]
    exact parseScoreReply_bounds r4

/-!
## Ensemble Reciprocal Rank Fusion (`retrievers/ensemble.py`)
-/

/-- Decimal digits of `n`, most significant first, with fuel. -/
def natDigitsAux : Nat → Nat → Str
  | 0, _ => []
  | _ + 1, 0 => []
  | fuel + 1, n => natDigitsAux fuel (n / 10) ++ [Char.ofNat (48 + n % 10)]

/-- Python `str(n)` for a natural number. -/
def natToStr (n : Nat) : Str := if n = 0 then "0".data else natDigitsAux (n + 1) n

/-- Python `str(n)` for an integer. -/
def intToStr : Int → Str
  | .ofNat n => natToStr n
  | .negSucc n => '-' :: natToStr (n + 1)

/-- Python `str(v)` as used when a metadata value is interpolated into an
f-string. -/
def metaValToStr : MetaVal → Str
  | .vStr s => s
  | .vNat n => natToStr n
  | .vInt n => intToStr n
  | .vRat _ => "<float>".data
  | .vBool b => if b then "True".data else "False".data
  | .vStrList _ => "<list>".data

/-- Method `EnsembleRetriever._get_document_id`: content identity is the f-string
`f"{source}:{content_hash}"` where `content_hash = hash(doc.page_content[:1000])`
and `source = doc.metadata.get("source", "unknown")`. -/
def getDocumentId (pyHash : Str → Int) (doc : Doc) : Str :=
  let content_hash := pyHash (doc.page_content.take 1000)
  let source := match alGet doc.metadata ("source".data) with
    | some v => metaValToStr v
    | none => "unknown".data
  source ++ [':'] ++ intToStr content_hash

/-- Python `doc_scores[doc_id] += v` on a `defaultdict(float)` in insertion order. -/
def addScore : List (Str × ℚ) → Str → ℚ → List (Str × ℚ)
  | [], k, v => [(k, v)]
  | p :: ps, k, v => if p.1 = k then (p.1, p.2 + v) :: ps else p :: addScore ps k v

/-- The `doc_objects` update of `_apply_rrf_fusion`: keep the stored document
unless the incoming duplicate has strictly more metadata keys. -/
def keepRicher : List (Str × Doc) → Str → Doc → List (Str × Doc)
  | [], k, d => [(k, d)]
  | p :: ps, k, d =>
    if p.1 = k then
      (if d.metadata.length > p.2.metadata.length then (p.1, d) :: ps else p :: ps)
    else p :: keepRicher ps k d

/-- The accumulation loops of `EnsembleRetriever._apply_rrf_fusion`: for each
strategy and each document at 0-based rank `rank`, add
`weight / (rank + 1 + C)` to the document's score and update the kept
document object. -/
def rrfFold (pyHash : Str → Int) (strategy_weights : List (Str × ℚ)) (C : ℚ)
    (strategy_results : List (Str × List Doc)) :
    List (Str × ℚ) × List (Str × Doc) :=
  strategy_results.foldl (fun acc sr =>
    sr.2.enum.foldl (fun acc2 p =>
      (addScore acc2.1 (getDocumentId pyHash p.2)
        ((alGet strategy_weights sr.1).getD 1 / ((p.1 : ℚ) + 1 + C)),
       keepRicher acc2.2 (getDocumentId pyHash p.2) p.2)) acc) ([], [])

/-- Stable insertion keeping descending key order: the new element goes after
every element with an equal or larger key (Python's stable `sorted` with
`reverse=True`). -/
def insertDesc {α : Type} (key : α → ℚ) (x : α) : List α → List α
  | [] => [x]
  | y :: ys => if key y < key x then x :: y :: ys else y :: insertDesc key x ys

/-- Python `sorted(l, key=key, reverse=True)` (stable). -/
def pySortDesc {α : Type} (key : α → ℚ) (l : List α) : List α :=
  l.foldl (fun acc x => insertDesc key x acc) []

/-- Method `EnsembleRetriever._apply_rrf_fusion`: accumulate RRF scores and kept
objects, sort by score descending, and return (document, score) pairs. -/
def applyRrfFusion (pyHash : Str → Int) (strategy_weights : List (Str × ℚ))
    (C : ℚ) (strategy_results : List (Str × List Doc)) : List (Doc × ℚ) :=
  let folded := rrfFold pyHash strategy_weights C strategy_results
  (pySortDesc (fun p => p.2) folded.1).map
    (fun p => ((alGet folded.2 p.1).getD emptyDoc, p.2))

/-- The score of `doc_id` in the accumulator (0 when absent, as for a
`defaultdict(float)`). -/
def scoreOf : List (Str × ℚ) → Str → ℚ
  | [], _ => 0
  | p :: ps, id => if p.1 = id then p.2 else scoreOf ps id

/-- The claim's RRF formula: a document identity's score is the sum, over the
sub-strategies, of `weight[strategy] / (r + C)` for each position where the
strategy returned it (`r` the 1-based rank; at most one position per strategy
when a strategy's list has no internal duplicates), with `weight` defaulting
to 1. -/
def rrfClaimScore (pyHash : Str → Int) (strategy_weights : List (Str × ℚ))
    (C : ℚ) (strategy_results : List (Str × List Doc)) (id : Str) : ℚ :=
  (strategy_results.map (fun sr =>
    ((sr.2.enum.filter (fun p => decide (getDocumentId pyHash p.2 = id))).map
      (fun p => (alGet strategy_weights sr.1).getD 1 / ((p.1 : ℚ) + 1 + C))).sum)).sum

theorem scoreOf_addScore (m : List (Str × ℚ)) (k : Str) (v : ℚ) (id : Str) :
    scoreOf (addScore m k v) id = scoreOf m id + (if id = k then v else 0) := by
  induction m with
  | nil =>
    by_cases h : id = k
    · simp [addScore, scoreOf, h]
    · simp [addScore, scoreOf, h, Ne.symm h]
  | cons p ps ih =>
    by_cases hp : p.1 = k
    · by_cases hid : p.1 = id
      · have : id = k := by rw [← hid, hp]
        simp [addScore, scoreOf, hp, hid, this]
      · have : ¬ id = k := fun hik => hid (by rw [hp, hik])
        have hk : ¬ k = id := hp ▸ hid
        simp [addScore, scoreOf, hp, hid, this, hk]
    · by_cases hid : p.1 = id
      · have : ¬ id = k := fun hik => hp (by rw [hid, hik])
        simp [addScore, scoreOf, hp, hid, this]
      · simp [addScore, scoreOf, hp, hid, ih]

theorem scoreOf_pairFold (g : Nat × Doc → Str) (f : Nat × Doc → ℚ)
    (es : List (Nat × Doc)) (acc : List (Str × ℚ) × List (Str × Doc)) (id : Str) :
    scoreOf ((es.foldl (fun acc2 p =>
        (addScore acc2.1 (g p) (f p), keepRicher acc2.2 (g p) p.2)) acc).1) id
      = scoreOf acc.1 id + ((es.filter (fun p => decide (g p = id))).map f).sum := by
  induction es generalizing acc with
  | nil => simp
  | cons e es ih =>
    simp only [List.foldl_cons]
    rw [ih]
    simp only [scoreOf_addScore]
    rw [List.filter_cons]
    by_cases he : g e = id
    · simp only [he, if_pos, decide_True, List.map_cons, List.sum_cons]
      ring
    · have : ¬ id = g e := fun h => he h.symm
      simp [he, this]

theorem scoreOf_rrfFold (pyHash : Str → Int) (strategy_weights : List (Str × ℚ))
    (C : ℚ) (strategy_results : List (Str × List Doc)) (id : Str) :
    scoreOf (rrfFold pyHash strategy_weights C strategy_results).1 id
      = rrfClaimScore pyHash strategy_weights C strategy_results id := by
  unfold rrfFold rrfClaimScore
  have main : ∀ (rs : List (Str × List Doc)) (acc : List (Str × ℚ) × List (Str × Doc)),
      scoreOf ((rs.foldl (fun acc sr =>
        sr.2.enum.foldl (fun acc2 p =>
          (addScore acc2.1 (getDocumentId pyHash p.2)
            ((alGet strategy_weights sr.1).getD 1 / ((p.1 : ℚ) + 1 + C)),
           keepRicher acc2.2 (getDocumentId pyHash p.2) p.2)) acc) acc).1) id
      = scoreOf acc.1 id + (rs.map (fun sr =>
          ((sr.2.enum.filter (fun p => decide (getDocumentId pyHash p.2 = id))).map
            (fun p => (alGet strategy_weights sr.1).getD 1 / ((p.1 : ℚ) + 1 + C))).sum)).sum := by
    intro rs
    induction rs with
    | nil => intro acc; simp
    | cons sr rs ih =>
      intro acc
      simp only [List.foldl_cons, List.map_cons, List.sum_cons]
      rw [ih]
      rw [scoreOf_pairFold (fun p => getDocumentId pyHash p.2)
        (fun p => (alGet strategy_weights sr.1).getD 1 / ((p.1 : ℚ) + 1 + C)) sr.2.enum acc id]
      ring
  have := main strategy_results ([], [])
  simpa [scoreOf] using this

theorem mem_insertDesc {α : Type} (key : α → ℚ) (x z : α) (l : List α) :
    z ∈ insertDesc key x l ↔ z = x ∨ z ∈ l := by
  induction l with
  | nil => simp [insertDesc]
  | cons y ys ih =>
    by_cases h : key y < key x
    · simp [insertDesc, h]
    · simp [insertDesc, h, ih]
      tauto

theorem pairwise_insertDesc {α : Type} (key : α → ℚ) (x : α) (l : List α)
    (hl : l.Pairwise (fun a b => key b ≤ key a)) :
    (insertDesc key x l).Pairwise (fun a b => key b ≤ key a) := by
  induction l with
  | nil => simp [insertDesc]
  | cons y ys ih =>
    rcases List.pairwise_cons.1 hl with ⟨hy, hys⟩
    by_cases h : key y < key x
    · rw [insertDesc, if_pos h]
      refine List.pairwise_cons.2 ⟨?_, hl⟩
      intro z hz
      rcases List.mem_cons.1 hz with hz | hz
      · subst hz
        exact le_of_lt h
      · exact le_trans (hy z hz) (le_of_lt h)
    · rw [insertDesc, if_neg h]
      refine List.pairwise_cons.2 ⟨?_, ih hys⟩
      intro z hz
      rcases (mem_insertDesc key x z ys).1 hz with hz | hz
      · subst hz
        exact not_lt.1 h
      · exact hy z hz

theorem pairwise_pySortDesc {α : Type} (key : α → ℚ) (l : List α) :
    (pySortDesc key l).Pairwise (fun a b => key b ≤ key a) := by
  unfold pySortDesc
  have main : ∀ (l acc : List α), acc.Pairwise (fun a b => key b ≤ key a) →
      (l.foldl (fun acc x => insertDesc key x acc) acc).Pairwise
        (fun a b => key b ≤ key a) := by
    intro l
    induction l with
    | nil => intro acc h; exact h
    | cons x xs ih =>
      intro acc h
      exact ih _ (pairwise_insertDesc key x acc h)
  exact main l [] (by simp)

theorem perm_insertDesc {α : Type} (key : α → ℚ) (x : α) (l : List α) :
    List.Perm (insertDesc key x l) (x :: l) := by
  induction l with
  | nil => simp [insertDesc]
  | cons y ys ih =>
    by_cases h : key y < key x
    · simp [insertDesc, h]
    · rw [insertDesc, if_neg h]
      exact (ih.cons y).trans (List.Perm.swap x y ys)

theorem perm_pySortDesc {α : Type} (key : α → ℚ) (l : List α) :
    List.Perm (pySortDesc key l) l := by
  unfold pySortDesc
  have main : ∀ (l acc : List α),
      List.Perm (l.foldl (fun acc x => insertDesc key x acc) acc) (acc ++ l) := by
    intro l
    induction l with
    | nil => intro acc; simp
    | cons x xs ih =>
      intro acc
      refine (ih (insertDesc key x acc)).trans ?_
      refine (List.Perm.append_right xs (perm_insertDesc key x acc)).trans ?_
      exact List.perm_middle.symm
  simpa using main l []

theorem alGet_keepRicher_self (m : List (Str × Doc)) (k : Str) (d : Doc) :
    alGet (keepRicher m k d) k =
      match alGet m k with
      | none => some d
      | some e => some (if d.metadata.length > e.metadata.length then d else e) := by
  induction m with
  | nil => simp [keepRicher, alGet]
  | cons p ps ih =>
    simp only [keepRicher]
    by_cases hp : p.1 = k
    · rw [if_pos hp]
      have h2 : alGet (p :: ps) k = some p.2 := by simp [alGet, hp]
      by_cases hsz : d.metadata.length > p.2.metadata.length
      · rw [if_pos hsz, h2]
        have h1 : alGet ((p.1, d) :: ps) k = some d := by simp [alGet, hp]
        rw [h1]
        dsimp only
        rw [if_pos hsz]
      · rw [if_neg hsz, h2]
        dsimp only
        rw [if_neg hsz]
    · rw [if_neg hp]
      have h1 : alGet (p :: keepRicher ps k d) k = alGet (keepRicher ps k d) k := by
        simp [alGet, hp]
      have h2 : alGet (p :: ps) k = alGet ps k := by simp [alGet, hp]
      rw [h1, h2, ih]

theorem alGet_keepRicher_ne (m : List (Str × Doc)) (k : Str) (d : Doc) (id : Str)
    (h : ¬ id = k) : alGet (keepRicher m k d) id = alGet m id := by
  have hki : ¬ k = id := fun hc => h hc.symm
  induction m with
  | nil => simp [keepRicher, alGet, hki]
  | cons p ps ih =>
    simp only [keepRicher]
    by_cases hp : p.1 = k
    · have hpid : ¬ p.1 = id := fun hc => h (by rw [← hc, hp])
      rw [if_pos hp]
      by_cases hsz : d.metadata.length > p.2.metadata.length
      · rw [if_pos hsz]
        simp [alGet, hp, hki, hpid]
      · rw [if_neg hsz]
    · rw [if_neg hp]
      by_cases hpid : p.1 = id
      · simp [alGet, hpid]
      · simp [alGet, hpid, ih]

/-- The effect of one `doc_objects` update seen through a single lookup. -/
def keepMaxStep (pyHash : Str → Int) (id : Str) (cur : Option Doc) (d : Doc) :
    Option Doc :=
  if id = getDocumentId pyHash d then
    match cur with
    | none => some d
    | some e => some (if d.metadata.length > e.metadata.length then d else e)
  else cur

theorem pairFold_snd (g : Nat × Doc → Str) (f : Nat × Doc → ℚ)
    (es : List (Nat × Doc)) (acc : List (Str × ℚ) × List (Str × Doc)) :
    ((es.foldl (fun acc2 p =>
        (addScore acc2.1 (g p) (f p), keepRicher acc2.2 (g p) p.2)) acc).2)
      = es.foldl (fun m p => keepRicher m (g p) p.2) acc.2 := by
  induction es generalizing acc with
  | nil => rfl
  | cons e es ih => simp only [List.foldl_cons]; rw [ih]

theorem foldl_flatten_keep {α : Type} (step : α → Doc → α) :
    ∀ (ls : List (List Doc)) (m : α),
      (ls.flatten).foldl step m = ls.foldl (fun m l => l.foldl step m) m := by
  intro ls
  induction ls with
  | nil => intro m; rfl
  | cons l ls ih =>
    intro m
    simp only [List.flatten_cons, List.foldl_append, List.foldl_cons]
    exact ih _

theorem rrfFold_snd (pyHash : Str → Int) (strategy_weights : List (Str × ℚ))
    (C : ℚ) (strategy_results : List (Str × List Doc)) :
    (rrfFold pyHash strategy_weights C strategy_results).2 =
      ((strategy_results.map (fun sr => sr.2)).flatten).foldl
        (fun m d => keepRicher m (getDocumentId pyHash d) d) [] := by
  unfold rrfFold
  rw [foldl_flatten_keep, List.foldl_map]
  have main : ∀ (rs : List (Str × List Doc)) (acc : List (Str × ℚ) × List (Str × Doc)),
      ((rs.foldl (fun acc sr =>
        sr.2.enum.foldl (fun acc2 p =>
          (addScore acc2.1 (getDocumentId pyHash p.2)
            ((alGet strategy_weights sr.1).getD 1 / ((p.1 : ℚ) + 1 + C)),
           keepRicher acc2.2 (getDocumentId pyHash p.2) p.2)) acc) acc).2)
      = rs.foldl (fun m sr =>
          sr.2.foldl (fun m d => keepRicher m (getDocumentId pyHash d) d) m) acc.2 := by
    intro rs
    induction rs with
    | nil => intro acc; rfl
    | cons sr rs ih =>
      intro acc
      simp only [List.foldl_cons]
      rw [ih]
      congr 1
      rw [pairFold_snd]
      conv_rhs => rw [← List.enum_map_snd sr.2]
      rw [List.foldl_map]
  exact main strategy_results ([], [])

theorem alGet_objFold (pyHash : Str → Int) (id : Str) :
    ∀ (ds : List Doc) (m : List (Str × Doc)),
      alGet (ds.foldl (fun m d => keepRicher m (getDocumentId pyHash d) d) m) id
        = ds.foldl (keepMaxStep pyHash id) (alGet m id) := by
  intro ds
  induction ds with
  | nil => intro m; rfl
  | cons d ds ih =>
    intro m
    simp only [List.foldl_cons]
    rw [ih]
    congr 1
    unfold keepMaxStep
    by_cases h : id = getDocumentId pyHash d
    · rw [if_pos h, h, alGet_keepRicher_self]
    · rw [if_neg h, alGet_keepRicher_ne _ _ _ _ h]

theorem keepMaxFold_spec (pyHash : Str → Int) (id : Str) :
    ∀ (ds : List Doc) (cur : Option Doc) (d : Doc),
      ds.foldl (keepMaxStep pyHash id) cur = some d →
      (cur = some d ∨ (d ∈ ds ∧ getDocumentId pyHash d = id))
      ∧ (∀ d2 ∈ ds, getDocumentId pyHash d2 = id →
          d2.metadata.length ≤ d.metadata.length)
      ∧ (∀ e, cur = some e → e.metadata.length ≤ d.metadata.length) := by
  intro ds
  induction ds with
  | nil =>
    intro cur d h
    simp only [List.foldl_nil] at h
    refine ⟨Or.inl h, by simp, ?_⟩
    intro e he
    rw [h] at he
    cases he
    exact le_refl _
  | cons d0 ds ih =>
    intro cur d h
    simp only [List.foldl_cons] at h
    rcases ih (keepMaxStep pyHash id cur d0) d h with ⟨hmem, hmax, hbase⟩
    by_cases hd0 : id = getDocumentId pyHash d0
    · rcases hcur : cur with _ | e
      all_goals rw [hcur] at hmem hbase
      all_goals unfold keepMaxStep at hmem hbase
      all_goals rw [if_pos hd0] at hmem hbase
      all_goals dsimp only at hmem hbase
      · refine ⟨?_, ?_, ?_⟩
        · rcases hmem with hmem | hmem
          · cases hmem
            exact Or.inr ⟨List.mem_cons_self _ _, hd0.symm⟩
          · exact Or.inr ⟨List.mem_cons_of_mem d0 hmem.1, hmem.2⟩
        · intro d2 hd2 hd2id
          rcases List.mem_cons.1 hd2 with hd2 | hd2
          · rw [hd2]
            exact hbase d0 rfl
          · exact hmax d2 hd2 hd2id
        · intro e he
          cases he
      · have hstep : e.metadata.length ≤
            (if d0.metadata.length > e.metadata.length then d0 else e).metadata.length := by
          by_cases hsz : d0.metadata.length > e.metadata.length
          · rw [if_pos hsz]
            exact le_of_lt hsz
          · rw [if_neg hsz]
        have hstep0 : d0.metadata.length ≤
            (if d0.metadata.length > e.metadata.length then d0 else e).metadata.length := by
          by_cases hsz : d0.metadata.length > e.metadata.length
          · rw [if_pos hsz]
          · rw [if_neg hsz]
            exact not_lt.1 hsz
        have hkept := hbase _ rfl
        refine ⟨?_, ?_, ?_⟩
        · rcases hmem with hmem | hmem
          · by_cases hsz : d0.metadata.length > e.metadata.length
            · rw [if_pos hsz] at hmem
              cases hmem
              exact Or.inr ⟨List.mem_cons_self _ _, hd0.symm⟩
            · rw [if_neg hsz] at hmem
              cases hmem
              exact Or.inl rfl
          · exact Or.inr ⟨List.mem_cons_of_mem d0 hmem.1, hmem.2⟩
        · intro d2 hd2 hd2id
          rcases List.mem_cons.1 hd2 with hd2 | hd2
          · rw [hd2]
            exact le_trans hstep0 hkept
          · exact hmax d2 hd2 hd2id
        · intro e' he'
          cases he'
          exact le_trans hstep hkept
    · have hstep : keepMaxStep pyHash id cur d0 = cur := by
        unfold keepMaxStep
        rw [if_neg hd0]
      rw [hstep] at hmem hbase
      refine ⟨?_, ?_, hbase⟩
      · rcases hmem with hmem | hmem
        · exact Or.inl hmem
        · exact Or.inr ⟨List.mem_cons_of_mem d0 hmem.1, hmem.2⟩
      · intro d2 hd2 hd2id
        rcases List.mem_cons.1 hd2 with hd2 | hd2
        · rw [hd2] at hd2id
          exact absurd hd2id.symm hd0
        · exact hmax d2 hd2 hd2id

/-- C2: ensemble RRF fusion assigns each unique document identity (hash of
first 1000 content chars combined with `metadata.source`) a score equal to
the sum over those sub-strategies that returned it of `weight / (r + 60)`
(`r` the 1-based rank, `weight` defaulting to 1); when duplicates occur the
instance with the most metadata keys is kept; the fused output is sorted by
descending summed score and the ensemble truncates it to `k`. -/
theorem rrf_fusion_properties (pyHash : Str → Int)
    (strategy_weights : List (Str × ℚ)) (strategy_results : List (Str × List Doc))
    (k : Nat) :
    (∀ id, scoreOf (rrfFold pyHash strategy_weights 60 strategy_results).1 id
        = rrfClaimScore pyHash strategy_weights 60 strategy_results id)
    ∧ (applyRrfFusion pyHash strategy_weights 60 strategy_results).Pairwise
        (fun a b => b.2 ≤ a.2)
    ∧ ((applyRrfFusion pyHash strategy_weights 60 strategy_results).take k).length ≤ k
    ∧ (∀ id d,
        alGet (rrfFold pyHash strategy_weights 60 strategy_results).2 id = some d →
          (d ∈ (strategy_results.map (fun sr => sr.2)).flatten
           ∧ getDocumentId pyHash d = id
           ∧ ∀ d2 ∈ (strategy_results.map (fun sr => sr.2)).flatten,
               getDocumentId pyHash d2 = id →
                 d2.metadata.length ≤ d.metadata.length)) := by
  refine ⟨scoreOf_rrfFold pyHash strategy_weights 60 strategy_results, ?_, ?_, ?_⟩
  · unfold applyRrfFusion
    exact List.Pairwise.map _ (fun a b h => h) (pairwise_pySortDesc _ _)
  · exact List.length_take_le k _
  · intro id d h
    rw [rrfFold_snd, alGet_objFold] at h
    have h0 : alGet ([] : List (Str × Doc)) id = none := rfl
    rw [h0] at h
    rcases keepMaxFold_spec pyHash id _ none d h with ⟨hmem, hmax, -⟩
    rcases hmem with hmem | hmem
    · cases hmem
    · exact ⟨hmem.1, hmem.2, hmax⟩

/-- Concrete inputs for the C2 witness: the spec's scenario 2 shape
(A → [d1, d2, d3]; B → [d2, d4]; C → [d1, d5]) with distinct sources. -/
def rrfExHash : Str → Int := fun _ => 0

def rrfExDoc (src content : String) : Doc :=
  ⟨content.data, [("source".data, MetaVal.vStr src.data)]⟩

def rrfExResults : List (Str × List Doc) :=
  [("A".data, [rrfExDoc "s1" "d1", rrfExDoc "s2" "d2", rrfExDoc "s3" "d3"]),
   ("B".data, [rrfExDoc "s2" "d2", rrfExDoc "s4" "d4"]),
   ("C".data, [rrfExDoc "s1" "d1", rrfExDoc "s5" "d5"])]

/-- Witness for C2 at the spec's ensemble scenario: the kept object for the
identity "s1:0" is d1, an occurrence with maximal metadata size. -/
theorem rrf_fusion_properties_witness :
    rrfExDoc "s1" "d1" ∈ (rrfExResults.map (fun sr => sr.2)).flatten
    ∧ getDocumentId rrfExHash (rrfExDoc "s1" "d1") = "s1:0".data
    ∧ ∀ d2 ∈ (rrfExResults.map (fun sr => sr.2)).flatten,
        getDocumentId rrfExHash d2 = "s1:0".data →
          d2.metadata.length ≤ (rrfExDoc "s1" "d1").metadata.length :=
  (rrf_fusion_properties rrfExHash [] rrfExResults 3).2.2.2
    ("s1:0".data) (rrfExDoc "s1" "d1") (by decide)

/-!
## The retrieval pipeline wrapper (`retrievers/base.py`, `BaseRetriever.retrieve`)
-/

/-- The `RetrievalMetrics` dataclass of `retrievers/base.py`. -/
structure RetrievalMetrics where
  strategy : Str
  query : Str
  num_results : Nat
  latency_ms : ℚ
  token_count : Option Nat
  cache_hit : Bool
deriving DecidableEq

/-- The `BaseRetriever` configuration fields set in `__init__`. -/
structure RetrieverCfg where
  k : Nat
  enable_caching : Bool
  cache_ttl : Nat
  strategy_name : Str
deriving DecidableEq

/-- The environment of one `retrieve` call: the outcome of the cache read
(when attempted), the outcome of `_retrieve_impl`, and the measured wall
clock latencies. -/
structure WrapperEnv where
  cacheRead : Except Str (Option (List Doc))
  implResult : Except Str (List Doc)
  latency_hit : ℚ
  latency_done : ℚ

deriving instance DecidableEq for Except

/-- Everything one `retrieve` call produces: its return or raised error, the
attempted cache writes, and the emitted metrics records. -/
structure WrapperOutcome where
  result : Except Str (List Doc)
  cacheWrites : List (Str × List Doc)
  metrics : List RetrievalMetrics
deriving DecidableEq

/-- The cache key f-string of the wrapper: retrieval, the strategy name, the
query hash, and k, joined with colons. -/
def mkCacheKey (pyHash : Str → Int) (strategy_name query : Str) (k : Nat) : Str :=
  ("retrieval:".data) ++ strategy_name ++ [':'] ++ intToStr (pyHash query) ++
    [':'] ++ natToStr k

/-- The cache-miss body of `BaseRetriever.retrieve`: run `_retrieve_impl`;
on failure log and re-raise (no cache write, no metrics); on success truncate
to `k`, attempt the cache write, count whitespace tokens, and emit one
metrics record. -/
def retrieveMissPath (cfg : RetrieverCfg) (query : Str) (env : WrapperEnv)
    (cache_key : Option Str) : WrapperOutcome :=
  match env.implResult with
  | .error e => { result := .error e, cacheWrites := [], metrics := [] }
  | .ok documents0 =>
    let documents := if documents0.length > cfg.k then documents0.take cfg.k
      else documents0
    let writes := match cache_key with
      | some ck => if cfg.enable_caching then [(ck, documents)] else []
      | none => []
    let token_count := some ((documents.map
      (fun d => (pySplitWs d.page_content).length)).sum)
    { result := .ok documents,
      cacheWrites := writes,
      metrics := [{ strategy := cfg.strategy_name, query := query,
                    num_results := documents.length, latency_ms := env.latency_done,
                    token_count := token_count, cache_hit := false }] }

/-- Method `BaseRetriever.retrieve`: attempt the cache read when caching is enabled
(a non-empty cached value is returned unchanged with one cache-hit metrics
record; an empty or missing value, or a cache error, degrades to a miss),
then run the miss path. -/
def baseRetrieve (pyHash : Str → Int) (cfg : RetrieverCfg) (query : Str)
    (env : WrapperEnv) : WrapperOutcome :=
  if cfg.enable_caching then
    let cache_key := mkCacheKey pyHash cfg.strategy_name query cfg.k
    match env.cacheRead with
    | .ok (some cached) =>
      if cached ≠ [] then
        { result := .ok cached, cacheWrites := [],
          metrics := [{ strategy := cfg.strategy_name, query := query,
                        num_results := cached.length, latency_ms := env.latency_hit,
                        token_count := none, cache_hit := true }] }
      else retrieveMissPath cfg query env (some cache_key)
    | .ok none => retrieveMissPath cfg query env (some cache_key)
    | .error _ => retrieveMissPath cfg query env (some cache_key)
  else retrieveMissPath cfg query env none

/-- Positional rank stamping: the document at 0-based index `i` carries
metadata `rank = i + 1`. -/
def ranksOk (docs : List Doc) : Bool :=
  (List.range docs.length).all (fun i =>
    decide (alGet ((docs.get? i).getD emptyDoc).metadata ("rank".data)
      = some (MetaVal.vNat (i + 1))))

theorem ranksOk_take (docs : List Doc) (k : Nat) (h : ranksOk docs = true) :
    ranksOk (docs.take k) = true := by
  rw [ranksOk, List.all_eq_true] at h ⊢
  intro i hi
  rw [List.mem_range] at hi
  have hik : i < k := lt_of_lt_of_le hi (List.length_take_le k docs)
  have hil : i < docs.length :=
    lt_of_lt_of_le hi (List.length_take_le' k docs)
  rw [List.get?_take hik]
  exact h i (List.mem_range.2 hil)

/-- Whether this call's environment reaches `_retrieve_impl` (no cache hit). -/
def cacheHitHappens (cfg : RetrieverCfg) (env : WrapperEnv) : Bool :=
  cfg.enable_caching &&
    match env.cacheRead with
    | .ok (some cached) => decide (cached ≠ [])
    | _ => false

/-- Boolean hypothesis: any value the cache can return is `≤ k` long and
positionally ranked (the invariant maintained by the wrapper's own writes,
which store already-truncated, strategy-ranked lists under a key that
includes `k`). -/
def cacheReadOk (env : WrapperEnv) (k : Nat) : Bool :=
  match env.cacheRead with
  | .ok (some cached) => decide (cached.length ≤ k) && ranksOk cached
  | _ => true

/-- Boolean hypothesis: the strategy implementation stamps `rank` with the
1-based position of each document in its output, as all six concrete
strategies do. -/
def implRanksOk (env : WrapperEnv) : Bool :=
  match env.implResult with
  | .ok docs => ranksOk docs
  | .error _ => true

theorem retrieveMissPath_ok (cfg : RetrieverCfg) (query : Str) (env : WrapperEnv)
    (ck : Option Str) (hi : implRanksOk env = true) :
    ∀ docs, (retrieveMissPath cfg query env ck).result = Except.ok docs →
      docs.length ≤ cfg.k ∧ ranksOk docs = true := by
  intro docs h
  unfold retrieveMissPath at h
  cases hr : env.implResult with
  | error e =>
    rw [hr] at h
    cases h
  | ok documents0 =>
    rw [hr] at h
    dsimp only at h
    unfold implRanksOk at hi
    rw [hr] at hi
    by_cases hlen : documents0.length > cfg.k
    · rw [if_pos hlen] at h
      cases h
      exact ⟨List.length_take_le cfg.k documents0, ranksOk_take documents0 cfg.k hi⟩
    · rw [if_neg hlen] at h
      cases h
      exact ⟨not_lt.1 hlen, hi⟩

/-- C1 (amended): for every `retrieve` call that completes successfully, the
returned sequence has length at most `k` and carries positional ranks —
provided the strategy implementation stamps `rank` positionally (as all six
concrete strategies do) and cached values satisfy the same invariant (as the
wrapper's own writes guarantee).  The wrapper itself only truncates to `k`;
it does not re-stamp ranks. -/
theorem retrieve_result_bounded (pyHash : Str → Int) (cfg : RetrieverCfg)
    (query : Str) (env : WrapperEnv)
    (hc : cacheReadOk env cfg.k = true) (hi : implRanksOk env = true) :
    ∀ docs, (baseRetrieve pyHash cfg query env).result = Except.ok docs →
      docs.length ≤ cfg.k ∧ ranksOk docs = true := by
  intro docs h
  unfold baseRetrieve at h
  by_cases hec : cfg.enable_caching
  · rw [if_pos hec] at h
    dsimp only at h
    cases hcr : env.cacheRead with
    | ok o =>
      cases o with
      | some cached =>
        rw [hcr] at h
        dsimp only at h
        unfold cacheReadOk at hc
        rw [hcr] at hc
        rw [Bool.and_eq_true, decide_eq_true_eq] at hc
        by_cases hne : cached ≠ []
        · rw [if_pos hne] at h
          cases h
          exact ⟨hc.1, hc.2⟩
        · rw [if_neg hne] at h
          exact retrieveMissPath_ok cfg query env _ hi docs h
      | none =>
        rw [hcr] at h
        dsimp only at h
        exact retrieveMissPath_ok cfg query env _ hi docs h
    | error e =>
      rw [hcr] at h
      dsimp only at h
      exact retrieveMissPath_ok cfg query env _ hi docs h
  · rw [if_neg hec] at h
    exact retrieveMissPath_ok cfg query env _ hi docs h

/-- Witness for C1 (amended): a call with caching disabled and an
implementation returning two positionally ranked documents with `k = 1`
returns at most one, still positionally ranked, document. -/
theorem retrieve_result_bounded_witness :
    cacheReadOk ⟨Except.ok none,
      Except.ok [⟨"a".data, [("rank".data, MetaVal.vNat 1)]⟩,
                 ⟨"b".data, [("rank".data, MetaVal.vNat 2)]⟩], 0, 0⟩ 1 = true
    ∧ ∀ docs,
        (baseRetrieve (fun _ => 0) ⟨1, false, 3600, "vector".data⟩ ("q".data)
          ⟨Except.ok none,
           Except.ok [⟨"a".data, [("rank".data, MetaVal.vNat 1)]⟩,
                      ⟨"b".data, [("rank".data, MetaVal.vNat 2)]⟩], 0, 0⟩).result
          = Except.ok docs →
        docs.length ≤ 1 ∧ ranksOk docs = true :=
  ⟨by decide,
   retrieve_result_bounded (fun _ => 0) ⟨1, false, 3600, "vector".data⟩
     ("q".data)
     ⟨Except.ok none,
      Except.ok [⟨"a".data, [("rank".data, MetaVal.vNat 1)]⟩,
                 ⟨"b".data, [("rank".data, MetaVal.vNat 2)]⟩], 0, 0⟩
     (by decide) (by decide)⟩

/-- C1 counterexample: the wrapper does not re-stamp ranks — an
implementation result whose single document carries `rank = 5` is returned
unchanged, so the returned document's `rank` differs from its 1-based
position. -/
theorem wrapper_does_not_restamp :
    (baseRetrieve (fun _ => 0) ⟨1, false, 3600, "vector".data⟩ ("q".data)
      ⟨Except.ok none,
       Except.ok [⟨"x".data, [("rank".data, MetaVal.vNat 5)]⟩], 0, 0⟩).result
      = Except.ok [⟨"x".data, [("rank".data, MetaVal.vNat 5)]⟩]
    ∧ ranksOk [⟨"x".data, [("rank".data, MetaVal.vNat 5)]⟩] = false := by
  refine ⟨by decide, by decide⟩

/-- C5 (amended): when the strategy implementation raises, the wrapper
re-raises the error to the caller, writes nothing to the cache, and emits no
metrics record at all; a call that returns successfully (cache hit or miss)
emits exactly one metrics record. -/
theorem retrieve_failure_behavior (pyHash : Str → Int) (cfg : RetrieverCfg)
    (query : Str) (env : WrapperEnv) :
    (∀ e, cacheHitHappens cfg env = false → env.implResult = Except.error e →
      (baseRetrieve pyHash cfg query env).result = Except.error e
      ∧ (baseRetrieve pyHash cfg query env).cacheWrites = []
      ∧ (baseRetrieve pyHash cfg query env).metrics = [])
    ∧ ((baseRetrieve pyHash cfg query env).result.isOk = true →
      (baseRetrieve pyHash cfg query env).metrics.length = 1) := by
  have hmiss : ∀ ck e, env.implResult = Except.error e →
      retrieveMissPath cfg query env ck =
        { result := .error e, cacheWrites := [], metrics := [] } := by
    intro ck e he
    unfold retrieveMissPath
    rw [he]
  have hmissOk : ∀ ck docs,
      (retrieveMissPath cfg query env ck).result = Except.ok docs →
      (retrieveMissPath cfg query env ck).metrics.length = 1 := by
    intro ck docs h
    unfold retrieveMissPath at h ⊢
    cases hr : env.implResult with
    | error e => rw [hr] at h; cases h
    | ok documents0 => rfl
  constructor
  · intro e hhit herr
    unfold baseRetrieve
    unfold cacheHitHappens at hhit
    by_cases hec : cfg.enable_caching
    · rw [if_pos hec]
      rw [hec] at hhit
      dsimp only
      cases hcr : env.cacheRead with
      | ok o =>
        cases o with
        | some cached =>
          rw [hcr] at hhit
          simp only [Bool.true_and] at hhit
          have hne : ¬ cached ≠ [] := by
            intro hcon
            rw [decide_eq_true hcon] at hhit
            cases hhit
          dsimp only
          rw [if_neg hne, hmiss _ e herr]
          exact ⟨rfl, rfl, rfl⟩
        | none =>
          rw [hmiss _ e herr]
          exact ⟨rfl, rfl, rfl⟩
      | error ce =>
        rw [hmiss _ e herr]
        exact ⟨rfl, rfl, rfl⟩
    · rw [if_neg hec, hmiss _ e herr]
      exact ⟨rfl, rfl, rfl⟩
  · intro hok
    have hok2 : ∃ docs, (baseRetrieve pyHash cfg query env).result = Except.ok docs := by
      cases hres : (baseRetrieve pyHash cfg query env).result with
      | ok docs => exact ⟨docs, rfl⟩
      | error e =>
        rw [hres] at hok
        simp [Except.isOk, Except.toBool] at hok
    rcases hok2 with ⟨docs, hdocs⟩
    revert hdocs
    unfold baseRetrieve
    by_cases hec : cfg.enable_caching
    · rw [if_pos hec]
      dsimp only
      cases hcr : env.cacheRead with
      | ok o =>
        cases o with
        | some cached =>
          dsimp only
          by_cases hne : cached ≠ []
          · rw [if_pos hne]
            intro _
            rfl
          · rw [if_neg hne]
            exact hmissOk _ docs
        | none => exact hmissOk _ docs
      | error ce => exact hmissOk _ docs
    · rw [if_neg hec]
      exact hmissOk _ docs

/-- Witness for C5 (amended) at a concrete failing call: the error is
re-raised, the cache is untouched, and no metrics are emitted. -/
theorem retrieve_failure_behavior_witness :
    (baseRetrieve (fun _ => 0) ⟨5, true, 3600, "bm25".data⟩ ("q".data)
      ⟨Except.ok none, Except.error ("boom".data), 0, 0⟩).result
        = Except.error ("boom".data)
    ∧ (baseRetrieve (fun _ => 0) ⟨5, true, 3600, "bm25".data⟩ ("q".data)
        ⟨Except.ok none, Except.error ("boom".data), 0, 0⟩).cacheWrites = []
    ∧ (baseRetrieve (fun _ => 0) ⟨5, true, 3600, "bm25".data⟩ ("q".data)
        ⟨Except.ok none, Except.error ("boom".data), 0, 0⟩).metrics = [] :=
  (retrieve_failure_behavior (fun _ => 0) ⟨5, true, 3600, "bm25".data⟩
    ("q".data) ⟨Except.ok none, Except.error ("boom".data), 0, 0⟩).1
    ("boom".data) (by decide) rfl

/-- C5 counterexample: a failing call emits no metrics record (the claim
says exactly one, with `num_results = 0` and an error tag; the
`RetrievalMetrics` dataclass has no error field at all). -/
theorem failing_retrieve_emits_no_metrics :
    ((baseRetrieve (fun _ => 0) ⟨5, true, 3600, "bm25".data⟩ ("q".data)
      ⟨Except.ok none, Except.error ("boom".data), 0, 0⟩).metrics.length = 1)
      = False := by
  simp only [eq_iff_iff, iff_false]
  decide

/-!
## Vector strategy (`retrievers/vector.py`)
-/

/-- The mutable fields of a `VectorRetriever` instance: configuration plus the
lazily initialized embeddings and vector-store handles. -/
structure VectorState where
  k : Nat
  collection_name : Str
  similarity_threshold : ℚ
  vector_store : Option Str
  embeddings : Option Str
deriving DecidableEq

/-- The external outcomes a vector `_retrieve_impl` call can observe:
`get_embeddings()`, the store construction, and the similarity search. -/
structure VectorEnv where
  embeddingsInit : Except Str Str
  storeInit : Except Str Str
  searchResult : Except Str (List (Doc × ℚ))

/-- Method `VectorRetriever._ensure_vector_store`: a no-op once connected; otherwise
assign `_embeddings`, then build the store; any failure is caught and leaves
`_vector_store = None` (with `_embeddings` set if its assignment happened
first). -/
def ensureVectorStore (st : VectorState) (env : VectorEnv) : VectorState :=
  if st.vector_store.isSome then st
  else
    match env.embeddingsInit with
    | .error _ => { st with vector_store := none }
    | .ok emb =>
      match env.storeInit with
      | .error _ => { st with embeddings := some emb, vector_store := none }
      | .ok store => { st with embeddings := some emb, vector_store := some store }

/-- The filter-and-stamp loop of `VectorRetriever._retrieve_impl`: keep hits
with score at or above the threshold, stamping `similarity_score`,
`retrieval_strategy`, positional `rank`, and `collection`. -/
def stampVectorResults (collection : Str) (threshold : ℚ)
    (results : List (Doc × ℚ)) : List Doc :=
  results.foldl (fun filtered_results p =>
    if p.2 ≥ threshold then
      let md := alUpdate p.1.metadata
        [("similarity_score".data, MetaVal.vRat p.2),
         ("retrieval_strategy".data, MetaVal.vStr ("vector".data)),
         ("rank".data, MetaVal.vNat (filtered_results.length + 1)),
         ("collection".data, MetaVal.vStr collection)]
      filtered_results ++ [{ p.1 with metadata := md }]
    else filtered_results) []

/-- Method `VectorRetriever._retrieve_impl`: ensure the store, return `[]` when it is
unavailable, pick the threshold override from kwargs, and catch any search
failure as `[]`. -/
def vectorRetrieveImpl (st : VectorState) (env : VectorEnv)
    (kwThreshold : Option ℚ) : Except Str (List Doc) × VectorState :=
  let st1 := ensureVectorStore st env
  if st1.vector_store.isNone then (Except.ok [], st1)
  else
    let threshold := kwThreshold.getD st1.similarity_threshold
    match env.searchResult with
    | .error _ => (Except.ok [], st1)
    | .ok results =>
      (Except.ok (stampVectorResults st1.collection_name threshold results), st1)

/-- Method `VectorRetriever.similarity_search_with_score_threshold`: temporarily
override `k` and `similarity_threshold`, call `_retrieve_impl`, and restore
both in a `finally` block. -/
def similaritySearchWithScoreThreshold (st : VectorState) (env : VectorEnv)
    (score_threshold : ℚ) (kOpt : Option Nat) :
    Except Str (List Doc) × VectorState :=
  let original_k := st.k
  let original_threshold := st.similarity_threshold
  let st1 := match kOpt with
    | some kk => { st with k := kk }
    | none => st
  let st2 := { st1 with similarity_threshold := score_threshold }
  let res := vectorRetrieveImpl st2 env none
  (res.1, { res.2 with k := original_k, similarity_threshold := original_threshold })

/-!
## Rerank strategy (`retrievers/rerank.py`)
-/

/-- The mutable fields of a `RerankRetriever` instance. -/
structure RerankState where
  k : Nat
  initial_k : Nat
  base_retriever_strategy : Str
  collection_name : Str
  base_retriever : Option (Str × Nat)
  llm : Option Str
deriving DecidableEq

/-- The external outcomes a rerank `_retrieve_impl` call can observe. -/
structure RerankEnv where
  baseInit : Except Str (Str × Nat)
  llmInit : Except Str Str
  baseRetrieve : Except Str (List Doc)
  llmResponse : Except Str Str

/-- Method `RerankRetriever._ensure_components_initialized`: initialize the base
retriever and the LLM when missing; both failures are caught. -/
def ensureComponentsInitialized (st : RerankState) (env : RerankEnv) :
    RerankState :=
  let st1 := if st.base_retriever.isNone then
      match env.baseInit with
      | .ok h => { st with base_retriever := some h }
      | .error _ => st
    else st
  if st1.llm.isNone then
    match env.llmInit with
    | .ok h => { st1 with llm := some h }
    | .error _ => st1
  else st1

/-- Method `RerankRetriever._rerank_documents`: with more than one document, ask the
LLM for an ordering; on LLM failure return the original order; otherwise
reorder by the parsed permutation. -/
def rerankDocuments (llmResponse : Except Str Str) (documents : List Doc) :
    List Doc :=
  if documents.length ≤ 1 then documents
  else
    match llmResponse with
    | .error _ => documents
    | .ok response =>
      rerankOrder documents (parseRankingResponse response documents.length)

/-- The final stamping loop of `RerankRetriever._retrieve_impl` over
`reranked_docs[:self.k]`. -/
def stampRerankResults (st : RerankState) (initial_count : Nat)
    (reranked : List Doc) : List Doc :=
  (reranked.take st.k).enum.map (fun p =>
    let md := alUpdate p.2.metadata
      [("retrieval_strategy".data, MetaVal.vStr ("rerank".data)),
       ("base_strategy".data, MetaVal.vStr st.base_retriever_strategy),
       ("rank".data, MetaVal.vNat (p.1 + 1)),
       ("reranked".data, MetaVal.vBool st.llm.isSome),
       ("initial_candidates".data, MetaVal.vNat initial_count)]
    { p.2 with metadata := md })

/-- Method `RerankRetriever._retrieve_impl`: ensure components, `[]` without a base
retriever, catch base-retrieval failure as `[]`, rerank when an LLM is
available and there are at least two candidates, stamp, truncate to `k`. -/
def rerankRetrieveImpl (st : RerankState) (env : RerankEnv) :
    Except Str (List Doc) × RerankState :=
  let st1 := ensureComponentsInitialized st env
  if st1.base_retriever.isNone then (Except.ok [], st1)
  else
    match env.baseRetrieve with
    | .error _ => (Except.ok [], st1)
    | .ok initial_docs =>
      if initial_docs = [] then (Except.ok [], st1)
      else
        let reranked_docs := if st1.llm.isSome ∧ initial_docs.length > 1 then
            rerankDocuments env.llmResponse initial_docs
          else initial_docs
        (Except.ok (stampRerankResults st1 initial_docs.length reranked_docs), st1)

/-!
## Ensemble strategy state and retrieval (`retrievers/ensemble.py`)
-/

/-- The configuration of a factory-created sub-retriever of the ensemble. -/
structure SubRetriever where
  strategy : Str
  k : Nat
  collection_name : Str
  enable_caching : Bool
deriving DecidableEq

/-- The mutable fields of an `EnsembleRetriever` instance. -/
structure EnsembleState where
  k : Nat
  enable_caching : Bool
  strategies : List Str
  strategy_weights : List (Str × ℚ)
  rrf_constant : ℚ
  enable_parallel : Bool
  collection_name : Str
  retrievers : List (Str × SubRetriever)
  initialized : Bool

/-- The sub-retriever `_ensure_retrievers_initialized` creates for a strategy:
`RetrieverFactory.create(strategy, k=min(self.k*3, 15), collection_name=...,
enable_caching=...)`. -/
def mkSubRetriever (st : EnsembleState) (strategy : Str) : SubRetriever :=
  ⟨strategy, min (st.k * 3) 15, st.collection_name, st.enable_caching⟩

/-- Method `EnsembleRetriever._ensure_retrievers_initialized`, with sub-retriever
creation modelled as always succeeding (in the code a per-strategy creation
failure is caught, logged, and that strategy skipped). -/
def ensureRetrieversInitialized (st : EnsembleState) : EnsembleState :=
  if st.initialized then st
  else
    { st with
      retrievers := st.strategies.foldl
        (fun m s => alSet m s (mkSubRetriever st s)) st.retrievers,
      initialized := true }

/-- The per-call sub-strategy outcomes (parallel and sequential dispatch
produce the same map: a failed or empty sub-strategy contributes `[]`). -/
structure EnsembleEnv where
  subResult : Str → Except Str (List Doc)

/-- The `strategy_results` map built by `_retrieve_parallel` /
`_retrieve_sequential`: one entry per configured strategy that has a
retriever, with failures isolated to `[]`. -/
def ensembleStrategyResults (st : EnsembleState) (env : EnsembleEnv) :
    List (Str × List Doc) :=
  st.strategies.filterMap (fun s =>
    if (alGet st.retrievers s).isSome then
      some (s, match env.subResult s with
        | .error _ => []
        | .ok docs => docs)
    else none)

/-- Method `EnsembleRetriever._get_contributing_strategies`. -/
def getContributingStrategies (pyHash : Str → Int) (doc : Doc)
    (strategy_results : List (Str × List Doc)) : List Str :=
  strategy_results.filterMap (fun sr =>
    if sr.2.any (fun d2 =>
        decide (getDocumentId pyHash d2 = getDocumentId pyHash doc)) then
      some sr.1
    else none)

/-- Method `EnsembleRetriever._retrieve_impl`: ensure sub-retrievers, `[]` when none
exist, gather isolated sub-results, apply RRF fusion, stamp ensemble
metadata on the top `k`. -/
def ensembleRetrieveImpl (pyHash : Str → Int) (st : EnsembleState)
    (env : EnsembleEnv) : Except Str (List Doc) × EnsembleState :=
  let st1 := ensureRetrieversInitialized st
  if st1.retrievers = [] then (Except.ok [], st1)
  else
    let strategy_results := ensembleStrategyResults st1 env
    let fused_results := applyRrfFusion pyHash st1.strategy_weights
      st1.rrf_constant strategy_results
    let final_docs := (fused_results.take st1.k).enum.map (fun p =>
      let md := alUpdate p.2.1.metadata
        [("retrieval_strategy".data, MetaVal.vStr ("ensemble".data)),
         ("ensemble_strategies".data, MetaVal.vStrList st1.strategies),
         ("rank".data, MetaVal.vNat (p.1 + 1)),
         ("rrf_score".data, MetaVal.vRat p.2.2),
         ("contributing_strategies".data, MetaVal.vStrList
            (getContributingStrategies pyHash p.2.1 strategy_results))]
      { p.2.1 with metadata := md })
    (Except.ok final_docs, st1)

/-- C9: the vector, rerank, and ensemble `_retrieve_impl` bodies never
propagate an exception: every external failure (initialization, store
search, base retrieval, LLM call, sub-strategy error) is caught and turned
into an empty contribution, so the result is always `ok` with a (possibly
empty) list. -/
theorem strategy_impls_never_raise :
    (∀ (st : VectorState) (env : VectorEnv) (kw : Option ℚ),
      (vectorRetrieveImpl st env kw).1.isOk = true)
    ∧ (∀ (st : RerankState) (env : RerankEnv),
      (rerankRetrieveImpl st env).1.isOk = true)
    ∧ (∀ (pyHash : Str → Int) (st : EnsembleState) (env : EnsembleEnv),
      (ensembleRetrieveImpl pyHash st env).1.isOk = true) := by
  refine ⟨?_, ?_, ?_⟩
  · intro st env kw
    unfold vectorRetrieveImpl
    dsimp only
    by_cases h1 : (ensureVectorStore st env).vector_store.isNone
    · rw [if_pos h1]
      rfl
    · rw [if_neg h1]
      cases env.searchResult with
      | error e => rfl
      | ok results => rfl
  · intro st env
    unfold rerankRetrieveImpl
    dsimp only
    by_cases h1 : (ensureComponentsInitialized st env).base_retriever.isNone
    · rw [if_pos h1]
      rfl
    · rw [if_neg h1]
      cases env.baseRetrieve with
      | error e => rfl
      | ok initial_docs =>
        dsimp only
        by_cases h2 : initial_docs = []
        · rw [if_pos h2]
          rfl
        · rw [if_neg h2]
          rfl
  · intro pyHash st env
    unfold ensembleRetrieveImpl
    dsimp only
    by_cases h1 : (ensureRetrieversInitialized st).retrievers = []
    · rw [if_pos h1]
      rfl
    · rw [if_neg h1]
      rfl

theorem ensureVectorStore_frame (st : VectorState) (env : VectorEnv) :
    (ensureVectorStore st env).k = st.k
    ∧ (ensureVectorStore st env).collection_name = st.collection_name
    ∧ (ensureVectorStore st env).similarity_threshold = st.similarity_threshold := by
  unfold ensureVectorStore
  by_cases h : st.vector_store.isSome
  · rw [if_pos h]
    exact ⟨rfl, rfl, rfl⟩
  · rw [if_neg h]
    cases env.embeddingsInit with
    | error e => exact ⟨rfl, rfl, rfl⟩
    | ok emb =>
      cases env.storeInit with
      | error e => exact ⟨rfl, rfl, rfl⟩
      | ok store => exact ⟨rfl, rfl, rfl⟩

theorem vectorRetrieveImpl_state (st : VectorState) (env : VectorEnv)
    (kw : Option ℚ) :
    (vectorRetrieveImpl st env kw).2 = ensureVectorStore st env := by
  unfold vectorRetrieveImpl
  dsimp only
  by_cases h : (ensureVectorStore st env).vector_store.isNone
  · rw [if_pos h]
  · rw [if_neg h]
    cases env.searchResult with
    | error e => rfl
    | ok results => rfl

theorem similaritySearch_state (st : VectorState) (env : VectorEnv)
    (score_threshold : ℚ) (kOpt : Option Nat) :
    (similaritySearchWithScoreThreshold st env score_threshold kOpt).2 =
      { ensureVectorStore
          { st with k := kOpt.getD st.k,
                    similarity_threshold := score_threshold } env with
        k := st.k, similarity_threshold := st.similarity_threshold } := by
  cases kOpt with
  | none =>
    unfold similaritySearchWithScoreThreshold
    dsimp only
    rw [vectorRetrieveImpl_state]
    rfl
  | some kk =>
    unfold similaritySearchWithScoreThreshold
    dsimp only
    rw [vectorRetrieveImpl_state]
    rfl

/-- C10 (amended): `similarity_search_with_score_threshold` always restores
the instance's `k` and `similarity_threshold` to their pre-call values (the
`finally` block runs on both the normal and the raising path), and it leaves
the configuration otherwise untouched; when the vector store was already
initialized, the whole state is exactly restored.  The one exception the
claim misses: on a first call with an uninitialized store, the lazily
created `_vector_store` / `_embeddings` handles remain set after the call. -/
theorem similarity_search_restores_settings (st : VectorState)
    (env : VectorEnv) (score_threshold : ℚ) (kOpt : Option Nat) :
    ((similaritySearchWithScoreThreshold st env score_threshold kOpt).2).k = st.k
    ∧ ((similaritySearchWithScoreThreshold st env score_threshold
        kOpt).2).similarity_threshold = st.similarity_threshold
    ∧ ((similaritySearchWithScoreThreshold st env score_threshold
        kOpt).2).collection_name = st.collection_name
    ∧ (st.vector_store.isSome = true →
        (similaritySearchWithScoreThreshold st env score_threshold kOpt).2 = st) := by
  refine ⟨rfl, rfl, ?_, ?_⟩
  · rw [similaritySearch_state]
    exact ((ensureVectorStore_frame _ env).2.1).trans rfl
  · intro hsome
    rw [similaritySearch_state]
    unfold ensureVectorStore
    have hcond : ({ st with k := kOpt.getD st.k, similarity_threshold := score_threshold } : VectorState).vector_store.isSome = true := hsome
    rw [if_pos hcond]

/-- Witness for C10 (amended): with an already-connected store, a call with
both overrides restores the state exactly. -/
theorem similarity_search_restores_settings_witness :
    (similaritySearchWithScoreThreshold
      ⟨5, "deepagents_documents".data, 0, some ("store".data), some ("emb".data)⟩
      ⟨Except.error ("e1".data), Except.error ("e2".data), Except.error ("down".data)⟩
      1 (some 10)).2
      = ⟨5, "deepagents_documents".data, 0, some ("store".data), some ("emb".data)⟩ :=
  (similarity_search_restores_settings
    ⟨5, "deepagents_documents".data, 0, some ("store".data), some ("emb".data)⟩
    ⟨Except.error ("e1".data), Except.error ("e2".data), Except.error ("down".data)⟩
    1 (some 10)).2.2.2 (by decide)

/-- C10 counterexample: on a first call with an uninitialized store and a
successful initialization, the call mutates the `_vector_store` (and
`_embeddings`) fields — "no other field of the strategy is modified" fails. -/
theorem similarity_search_modifies_store_field :
    ((similaritySearchWithScoreThreshold
        ⟨5, "deepagents_documents".data, 0, none, none⟩
        ⟨Except.ok ("emb".data), Except.ok ("store".data),
         Except.error ("down".data)⟩
        0 none).2).vector_store = some ("store".data)
    ∧ (⟨5, "deepagents_documents".data, 0, none, none⟩ :
        VectorState).vector_store = none := by
  exact ⟨by decide, by decide⟩

/-!
## Ensemble dynamic membership (`retrievers/ensemble.py`,
`add_strategy` / `remove_strategy`)
-/

/-- Method `EnsembleRetriever.add_strategy`: only when the strategy is not already a
member, append it, set its weight, and force re-initialization. -/
def addStrategy (st : EnsembleState) (strategy : Str) (weight : ℚ) :
    EnsembleState :=
  if strategy ∉ st.strategies then
    { st with strategies := st.strategies ++ [strategy],
              strategy_weights := alSet st.strategy_weights strategy weight,
              initialized := false }
  else st

/-- Method `EnsembleRetriever.remove_strategy`: when the strategy is a member, drop
it from the member list, the weight map, and the retriever map. -/
def removeStrategy (st : EnsembleState) (strategy : Str) : EnsembleState :=
  if strategy ∈ st.strategies then
    { st with strategies := st.strategies.erase strategy,
              strategy_weights := alErase st.strategy_weights strategy,
              retrievers := alErase st.retrievers strategy }
  else st

/-- Everything the next `retrieve` call's behavior depends on, after the lazy
re-initialization: the ordered member list, the effective weight of each
member (default 1), the sub-retriever used for each member, and the fusion
and truncation parameters. -/
structure EnsembleBehavior where
  strategies : List Str
  weights : List ℚ
  subRetrievers : List (Option SubRetriever)
  rrf_constant : ℚ
  k : Nat
  enable_parallel : Bool
  collection_name : Str

/-- The observable behavior of an ensemble state once
`_ensure_retrievers_initialized` has run. -/
def ensembleBehavior (st : EnsembleState) : EnsembleBehavior :=
  let st1 := ensureRetrieversInitialized st
  { strategies := st1.strategies,
    weights := st1.strategies.map (fun s => (alGet st1.strategy_weights s).getD 1),
    subRetrievers := st1.strategies.map (fun s => alGet st1.retrievers s),
    rrf_constant := st1.rrf_constant,
    k := st1.k,
    enable_parallel := st1.enable_parallel,
    collection_name := st1.collection_name }

/-- Reachable-state invariant: once the ensemble reports itself initialized,
every member strategy's retriever entry is the factory-default sub-retriever
(the only writer, `_ensure_retrievers_initialized`, creates exactly these). -/
def ensembleWF (st : EnsembleState) : Bool :=
  !st.initialized ||
    st.strategies.all (fun s =>
      decide (alGet st.retrievers s = some (mkSubRetriever st s)))

theorem alGet_foldl_alSet {α : Type} (f : Str → α) (l : List Str) :
    ∀ (m : List (Str × α)) (s : Str),
      alGet (l.foldl (fun m x => alSet m x (f x)) m) s
        = if s ∈ l then some (f s) else alGet m s := by
  induction l with
  | nil => intro m s; simp
  | cons x xs ih =>
    intro m s
    simp only [List.foldl_cons]
    rw [ih]
    by_cases hs : s ∈ xs
    · rw [if_pos hs, if_pos (List.mem_cons_of_mem x hs)]
    · rw [if_neg hs]
      by_cases hx : s = x
      · rw [hx, if_pos (List.mem_cons_self x xs), alGet_alSet_self]
      · rw [if_neg (by simp [hx, hs] : ¬ s ∈ x :: xs)]
        exact alGet_alSet_ne m x s (f x) hx

/-- C7 (amended): for a strategy `X` that is not currently a member,
`add_strategy(X, w)` followed by `remove_strategy(X)` is a no-op on the
ensemble's behavior: the member list, effective weights, sub-retrievers
(after the forced lazy re-initialization), and all fusion parameters are
unchanged, on every reachable state (one whose initialized retriever map
holds the factory-default sub-retrievers). -/
theorem add_remove_strategy_noop (st : EnsembleState) (X : Str) (w : ℚ)
    (hX : X ∉ st.strategies) (hwf : ensembleWF st = true) :
    ensembleBehavior (removeStrategy (addStrategy st X w) X)
      = ensembleBehavior st := by
  have herase : (st.strategies ++ [X]).erase X = st.strategies := by
    rw [List.erase_append_right _ hX, List.erase_cons_head, List.append_nil]
  have hweights : ∀ s ∈ st.strategies,
      alGet (alErase (alSet st.strategy_weights X w) X) s
        = alGet st.strategy_weights s := by
    intro s hs
    have hsX : s ≠ X := fun hc => hX (hc ▸ hs)
    rw [alGet_alErase_ne _ _ _ hsX, alGet_alSet_ne _ _ _ _ hsX]
  unfold addStrategy
  rw [if_pos hX]
  unfold removeStrategy
  dsimp only
  rw [if_pos (by simp : X ∈ st.strategies ++ [X])]
  unfold ensembleBehavior ensureRetrieversInitialized
  dsimp only
  rw [herase]
  rw [if_neg (by simp)]
  by_cases hinit : st.initialized
  · rw [if_pos hinit]
    unfold ensembleWF at hwf
    rw [hinit] at hwf
    simp only [Bool.not_true, Bool.false_or, List.all_eq_true,
      decide_eq_true_eq] at hwf
    dsimp only
    simp only [EnsembleBehavior.mk.injEq, true_and, and_true]
    constructor
    · apply List.map_congr_left
      intro s hs
      rw [hweights s hs]
    · apply List.map_congr_left
      intro s hs
      rw [alGet_foldl_alSet, if_pos hs, hwf s hs]
      rfl
  · rw [if_neg hinit]
    dsimp only
    simp only [EnsembleBehavior.mk.injEq, true_and, and_true]
    constructor
    · apply List.map_congr_left
      intro s hs
      rw [hweights s hs]
    · apply List.map_congr_left
      intro s hs
      rw [alGet_foldl_alSet, if_pos hs, alGet_foldl_alSet, if_pos hs]
      rfl

/-- The default ensemble configuration (`EnsembleRetriever.__init__` with no
arguments): strategies bm25, vector, rerank; no explicit weights; RRF
constant 60. -/
def defaultEnsembleState : EnsembleState :=
  { k := 5, enable_caching := true,
    strategies := ["bm25".data, "vector".data, "rerank".data],
    strategy_weights := [], rrf_constant := 60, enable_parallel := true,
    collection_name := "deepagents_documents".data,
    retrievers := [], initialized := false }

/-- Witness for C7 (amended): adding and then removing a non-member strategy
leaves the default ensemble's behavior unchanged. -/
theorem add_remove_strategy_noop_witness :
    ensembleBehavior (removeStrategy
      (addStrategy defaultEnsembleState ("parent_doc".data) 2) ("parent_doc".data))
      = ensembleBehavior defaultEnsembleState :=
  add_remove_strategy_noop defaultEnsembleState ("parent_doc".data) 2
    (by decide) (by decide)

/-- C7 counterexample: for a strategy that already is a member,
`add_strategy` is a no-op and `remove_strategy` then removes it — on the
default ensemble, `add_strategy("bm25"); remove_strategy("bm25")` drops bm25
from the member list, changing subsequent retrieval behavior. -/
theorem add_remove_existing_member_not_noop :
    (ensembleBehavior (removeStrategy
        (addStrategy defaultEnsembleState ("bm25".data) 1)
        ("bm25".data))).strategies
      = ["vector".data, "rerank".data]
    ∧ (ensembleBehavior defaultEnsembleState).strategies
      = ["bm25".data, "vector".data, "rerank".data]
    ∧ ¬ ensembleBehavior (removeStrategy
        (addStrategy defaultEnsembleState ("bm25".data) 1) ("bm25".data))
      = ensembleBehavior defaultEnsembleState :=
  ⟨by decide, by decide,
   fun hc => absurd (congrArg EnsembleBehavior.strategies hc) (by decide)⟩
